import Mathlib

set_option maxHeartbeats 1000000

/-!
Verification of the orchestration core of the `neon_speech` service
(`neon_speech/__main__.py`): the STT dispatch coordinator
(`_get_stt_from_file`), the file-based transcription API handlers
(`handle_get_stt`, `handle_audio_input`, `handle_input_from_klat`), the
utterance publish protocol (`_emit_utterance_to_skills`, `handle_utterance`)
and the microphone gating handlers (`handle_audio_start`,
`handle_audio_end`), together with a labelled transition system for the
exclusive lock that serializes access to the shared streaming STT engine.

External collaborators (filesystem, audio decoder, STT engine, message bus,
chat-user database) are modelled as explicit environments; side effects
(emissions, engine calls) are returned as traces.  Wall-clock timestamps
(`time.time()`) carry no information the properties depend on and are
represented by an abstract `clock` marker.
-/

/-- The shape of a transcription result as Python produces it:
`None`, or a list of possibly-`None` strings. -/
abbrev PyList := Option (List (Option String))

/-- Python truthiness of an optional string (``None`` and ``""`` are falsy). -/
def strTruthy : Option String → Bool
  | none => false
  | some s => s ≠ ""

/-- Python truthiness of a transcription list (`None` and `[]` are falsy). -/
def listTruthy : PyList → Bool
  | none => false
  | some l => !l.isEmpty

/-- `o or d` on strings, as Python evaluates it (`None` and `""` fall through). -/
def pyOrDefault (o : Option String) (d : String) : String :=
  match o with
  | some s => if s = "" then d else s
  | none => d

/-- `str(x)` of an optional string, as a Python f-string renders it. -/
def pyStr (o : Option String) : String := o.getD "None"

/-- The Python exceptions the embedded handlers can observe. -/
inductive PyErr
  | keyError (key : String)
  | typeError (msg : String)
  | fileNotFound (path : String)
  deriving DecidableEq

/-- `repr(e)` of an exception, as placed into `{"error": repr(e)}` replies. -/
def reprE : PyErr → String
  | .keyError k => "KeyError(" ++ k ++ ")"
  | .typeError m => "TypeError(" ++ m ++ ")"
  | .fileNotFound p => "FileNotFoundError(" ++ p ++ ")"

/-- The decoded audio buffer (`speech_recognition.AudioData` built from the
`pydub.AudioSegment`): raw PCM bytes, frame rate, sample width. -/
structure AudioData where
  raw_data : List Nat
  frame_rate : Nat
  sample_width : Nat
  deriving DecidableEq

/-- The audio-parser context dictionary attached to one buffer. -/
abbrev ParserData := List (String × String)

/-- The environment `_get_stt_from_file` runs against: the filesystem, the
decoder, the audio file stream, the streaming and batch STT engines and the
audio parser service.  `AudioSegment.from_file` raises on a missing path, so
decoding succeeds exactly on the paths `os.path.isfile` accepts here. -/
structure SttEnv where
  isfile : String → Bool
  decodeBuf : String → AudioData
  chunks : String → List (List Nat)
  feedEof : List Nat → Bool
  stopResult : PyList
  batchResult : PyList
  extractor : AudioData → Except String ParserData
  apiStt : Bool

/-- Modelled from the spec: `AudioParsersService.get_context`
(`neon_speech/plugins.py`, a file of this repository that is not among the
sources here) applies the configured audio parser plugins to a decoded
buffer; per the spec, "extractor failure must not fail the overall
transcription — it degrades to an absent context, logged". -/
def get_context (extractor : AudioData → Except String ParserData)
    (audio : AudioData) : AudioData × Option ParserData :=
  match extractor audio with
  | .ok d => (audio, some d)
  | .error _ => (audio, none)

/-- One observable call `_get_stt_from_file` makes on its collaborators. -/
inductive SttEv
  | decode (path : String)
  | stream_start (lang : Option String)
  | stream_data (chunk : List Nat)
  | stream_stop
  | transcribe (lang : Option String)
  | parse_context
  deriving DecidableEq

/-- The read/feed loop of `_get_stt_from_file`: read 1024-byte chunks from
the audio file stream and feed each to the streaming engine; reading past
the end of the stream raises `EOFError` (the `[]` case), and the engine may
itself raise `EOFError` while a chunk is fed; either ends the loop. -/
def feedChunks (env : SttEnv) : List (List Nat) → List SttEv
  | [] => []
  | c :: rest =>
      SttEv.stream_data c :: (if env.feedEof c then [] else feedChunks env rest)

/-- `_get_stt_from_file(wav_file, lang="en-us")`: decode the file, transcribe
it (streaming engine under the shared lock when `API_STT` is configured,
otherwise the batch engine), then enrich with the audio parser context.
The Python signature defaults `lang` to `"en-us"`, but that default applies
only to calls that omit the argument; both in-repository callers pass it
explicitly, so it is a required parameter here.  Returns the trace of
collaborator calls and the result (or the exception raised). -/
def _get_stt_from_file (env : SttEnv) (wav_file : String)
    (lang : Option String) :
    List SttEv × Except PyErr (AudioData × Option ParserData × PyList) :=
  if env.isfile wav_file then
    let audio_data := env.decodeBuf wav_file
    let step :=
      if env.apiStt then
        (SttEv.stream_start lang ::
            (feedChunks env (env.chunks wav_file) ++ [SttEv.stream_stop]),
          env.stopResult)
      else
        ([SttEv.transcribe lang], env.batchResult)
    let enriched := get_context env.extractor audio_data
    (SttEv.decode wav_file :: (step.1 ++ [SttEv.parse_context]),
      .ok (enriched.1, enriched.2, step.2))
  else
    ([SttEv.decode wav_file], .error (.fileNotFound wav_file))

/-- The payload of one `message.reply` emitted by `handle_get_stt`. -/
inductive ReplyData
  | stt (parser_data : Option ParserData) (transcripts : PyList)
  | err (msg : String)
  deriving DecidableEq

/-- The fields of a `neon.get_stt` request the handler reads. -/
structure GetSttMsg where
  audio_file : Option String
  lang : Option String
  ctx_ident : Option String
  deriving DecidableEq

/-- `handle_get_stt`: reply to the sender with stt data or error data.
Result: the collaborator-call trace of `_get_stt_from_file`, the list of
emitted replies (reply ident paired with payload), and an exception that
escaped the handler, if any.  The source has no `return` after either error
reply, so control falls through them; with a `None` path, the fall-through
reaches `os.path.isfile(None)`, which raises `TypeError` outside the
`try` block. -/
def handle_get_stt (env : SttEnv) (msg : GetSttMsg) :
    List SttEv × List (String × ReplyData) × Option PyErr :=
  let ident := pyOrDefault msg.ctx_ident "neon.get_stt.response"
  let r1 : List (String × ReplyData) :=
    if strTruthy msg.audio_file then []
    else [(ident, .err "audio_file not specified!")]
  match msg.audio_file with
  | none => ([], r1, some (.typeError "isfile: path is None"))
  | some path =>
      let r2 : List (String × ReplyData) :=
        if env.isfile path then []
        else [(ident, .err (path ++ " Not found!"))]
      let run := _get_stt_from_file env path msg.lang
      match run.2 with
      | .ok res =>
          (run.1, r1 ++ r2 ++ [(ident, .stt res.2.1 res.2.2)], none)
      | .error e =>
          (run.1, r1 ++ r2 ++ [(ident, .err (reprE e))], none)

/-- A value used as a message `ident`: a string from the request, or the
`time.time()` timestamp some handlers generate (abstract `clock` marker). -/
inductive IdentV
  | str (s : String)
  | clock
  deriving DecidableEq

/-- The routing-context dictionary of an outbound
`recognizer_loop:utterance` message (every key any of the three publishing
handlers writes; `timing` elided as pure timestamps).  `extra` holds the
keys `merge_dict` copies from a live event's `data` field. -/
structure UCtx where
  client_name : String
  source : Option String
  destination : List String
  ident : Option IdentV
  raw_audio : Option String
  audio_parser_data : Option ParserData
  client : Option String
  mobile : Option Bool
  username : Option String
  neon_should_respond : Option Bool
  klat_data : Option (List (String × String))
  nick_profiles : Option (List String)
  cc_speak : Option (Option String)
  extra : List (String × String)
  deriving DecidableEq

/-- An outbound bus message carrying an utterance payload
(`{"utterances": ..., "lang": ...}`) and a routing context. -/
structure UMsg where
  msg_type : String
  utterances : PyList
  lang : Option String
  context : UCtx
  deriving DecidableEq

/-- The downstream side of the bus: for a given outbound message, when (if
ever) the skills module's acknowledgment reply arrives. -/
structure Bus where
  replyAt : UMsg → Option Nat

/-- Whether an acknowledgment for `m` arrives within `timeout` time units. -/
def ackWithin (bus : Bus) (m : UMsg) (timeout : Nat) : Bool :=
  match bus.replyAt m with
  | some t => decide (t ≤ timeout)
  | none => false

/-- `bus.wait_for_response(message, timeout)`: emit the message once and
block until the reply keyed to it arrives or the timeout elapses.  Returns
the emissions performed and whether a reply was received. -/
def wait_for_response (bus : Bus) (m : UMsg) (timeout : Nat) :
    List UMsg × Bool :=
  ([m], ackWithin bus m timeout)

deriving instance DecidableEq for Except

/-- What one call of `_emit_utterance_to_skills` did: the messages it
emitted, whether it logged at error severity, and its outcome (`Bool`
return or exception). -/
structure EmitOut where
  emitted : List UMsg
  error_logged : Bool
  result : Except PyErr Bool
  deriving DecidableEq

/-- `_emit_utterance_to_skills`: read `message_to_emit.context['ident']`
(a plain subscript — `KeyError` when the key is absent, before anything is
emitted), then emit the single intent request with a 10-unit response
timeout; on no reply, log an error and return `False`, else return
`True`. -/
def _emit_utterance_to_skills (bus : Bus) (message_to_emit : UMsg) :
    EmitOut :=
  match message_to_emit.context.ident with
  | none => ⟨[], false, .error (.keyError "ident")⟩
  | some _ =>
      let r := wait_for_response bus message_to_emit 10
      if r.2 then ⟨r.1, false, .ok true⟩ else ⟨r.1, true, .ok false⟩

/-- A live utterance event from the capture loop, as `handle_utterance`
reads it: the candidate transcripts, the popped `raw_audio`, `data` and
`ident` fields (`timing` elided as pure timestamps). -/
structure UEvent where
  utterances : PyList
  lang : Option String
  raw_audio : Option String
  dataMap : Option (List (String × String))
  ident : Option IdentV
  deriving DecidableEq

/-- The `ident` the context built by `handle_utterance` ends up holding:
`merge_dict` first copies the event's `data` keys (so a `data`-supplied
ident lands in the context), then an event-level `ident` overwrites it. -/
def uIdent (ev : UEvent) : Option IdentV :=
  match ev.ident with
  | some i => some i
  | none => (ev.dataMap.bind (List.lookup "ident")).map IdentV.str

/-- The outbound message `handle_utterance` builds: the capture-loop event
wrapped in a fixed routing context, with the event's `data` merged in and
an event-level `ident` overriding. -/
def uMessage (ev : UEvent) : UMsg :=
  ⟨"recognizer_loop:utterance", ev.utterances, ev.lang,
    ⟨"mycroft_listener", some "audio", ["skills"], uIdent ev, ev.raw_audio,
      none, none, none, none, none, none, none, none,
      (ev.dataMap.getD []).filter (fun kv => kv.1 ≠ "ident")⟩⟩

/-- `handle_utterance`: wrap the capture-loop event in a fixed routing
context (merging in the event's `data` and `ident` when present) and hand
it to `_emit_utterance_to_skills`. -/
def handle_utterance (bus : Bus) (ev : UEvent) : EmitOut :=
  _emit_utterance_to_skills bus (uMessage ev)

/-- The `listener` section of the service configuration. -/
structure ListenerConfig where
  mute_during_output : Bool
  deriving DecidableEq

/-- The service configuration as the handlers read it
(`config.get("listener")...`). -/
structure SpeechConfig where
  listener : ListenerConfig
  deriving DecidableEq

/-- A call the audio-output handlers make on the recognizer loop. -/
inductive LCall
  | mute
  | unmute
  deriving DecidableEq

/-- `handle_audio_start`: mute the recognizer loop, but only when
`listener.mute_during_output` is configured. -/
def handle_audio_start (cfg : SpeechConfig) : List LCall :=
  if cfg.listener.mute_during_output then [LCall.mute] else []

/-- `handle_audio_end`: request unmute under the same configuration flag. -/
def handle_audio_end (cfg : SpeechConfig) : List LCall :=
  if cfg.listener.mute_during_output then [LCall.unmute] else []

/-- Run a sequence of listener calls against any interpretation of the
recognizer loop's mute and unmute operations. -/
def applyLCalls {S : Type} (muteOp unmuteOp : S → S) :
    List LCall → S → S
  | [], s => s
  | LCall.mute :: rest, s => applyLCalls muteOp unmuteOp rest (muteOp s)
  | LCall.unmute :: rest, s => applyLCalls muteOp unmuteOp rest (unmuteOp s)

/-- The fields of a `neon.audio_input` request the handler and its nested
`build_context` read (`time` elided as a pure timestamp). -/
structure AudioInputMsg where
  audio_file : Option String
  lang : Option String
  ctx_ident : Option String
  ctx_source : Option String
  ctx_client : Option String
  ctx_neon_should_respond : Option Bool
  ctx_username : Option String
  ctx_klat_data : Option (List (String × String))
  ctx_nick_profiles : Option (List String)
  deriving DecidableEq

/-- Python truthiness of an optional dictionary (`None` and `{}` are falsy). -/
def dictTruthy : Option (List (String × String)) → Bool
  | none => false
  | some d => !d.isEmpty

/-- The nested `build_context` of `handle_audio_input`.  `parser_data` is
the value the handler stored into `message.context["audio_parser_data"]`
just before the call.  Its `source` key reads
`msg.context.get("source" or "speech_api")`, and `"source" or
"speech_api"` evaluates to `"source"`.  When the inbound context carries a
truthy `klat_data`, the body runs `msg.context("klat_data")` — calling the
context dictionary — which raises `TypeError` before a context is built. -/
def build_context (msg : AudioInputMsg) (parser_data : Option ParserData) :
    Except PyErr UCtx :=
  if dictTruthy msg.ctx_klat_data then
    .error (.typeError "dict object is not callable")
  else
    .ok ⟨"mycroft_listener", msg.ctx_source, ["skills"],
      some ((msg.ctx_ident.map IdentV.str).getD IdentV.clock),
      none, parser_data, msg.ctx_client, none, msg.ctx_username,
      msg.ctx_neon_should_respond, none, none, none, []⟩

/-- The payload of one `message.reply` emitted by `handle_audio_input`. -/
inductive AIReplyData
  | stt (parser_data : Option ParserData) (transcripts : PyList)
      (skills_recv : Bool)
  | err (msg : String)
  deriving DecidableEq

/-- `handle_audio_input`: transcribe the supplied file, build the routing
context, publish the utterance to skills and reply to the requester with
the transcripts and whether skills acknowledged; any exception inside the
`try` block (decoding a `None` or missing path, the `build_context`
`TypeError`) becomes an `{"error": repr(e)}` reply.  Result: the
collaborator-call trace, the emitted replies, the published utterance
messages, and an exception that escaped the handler, if any. -/
def handle_audio_input (env : SttEnv) (bus : Bus) (msg : AudioInputMsg) :
    List SttEv × List (String × AIReplyData) × List UMsg × Option PyErr :=
  let ident := pyOrDefault msg.ctx_ident "neon.audio_input.response"
  match msg.audio_file with
  | none => ([], [(ident, .err (reprE (.typeError "from_file: path is None")))],
      [], none)
  | some path =>
      let run := _get_stt_from_file env path msg.lang
      match run.2 with
      | .error e => (run.1, [(ident, .err (reprE e))], [], none)
      | .ok res =>
          let parser_data := res.2.1
          let transcriptions := res.2.2
          match build_context msg parser_data with
          | .error e => (run.1, [(ident, .err (reprE e))], [], none)
          | .ok ctx =>
              let m : UMsg := ⟨"recognizer_loop:utterance", transcriptions,
                some (msg.lang.getD "en-us"), ctx⟩
              let eres := _emit_utterance_to_skills bus m
              match eres.result with
              | .ok handled =>
                  (run.1,
                    [(ident, .stt parser_data transcriptions handled)],
                    eres.emitted, none)
              | .error e =>
                  (run.1, [(ident, .err (reprE e))], eres.emitted, none)

/-- The fields of a legacy `recognizer_loop:klat_utterance` message the
handler reads (`time` elided as a pure timestamp). -/
structure KlatMsg where
  raw_audio : Option String
  user : Option String
  sid : Option String
  socketIdEncrypted : Option String
  nano : Option String
  cid_nicks : Option (List String)
  need_transcription : Bool
  shout_text : Option String
  cid : Option String
  title : Option String
  deriving DecidableEq

/-- One emission `handle_input_from_klat` performs: the `css.emit`
transcript return to the klat server, or the downstream utterance publish. -/
inductive KEmit
  | css (first_transcript : Option String) (request_id : String)
  | utter (m : UMsg)
  deriving DecidableEq

/-- What `handle_input_from_klat` did: its emissions in order, whether it
logged the `Null Transcription!` warning and returned, and whether it
logged the `Need transcription but no audio passed!` error and returned. -/
structure KlatOut where
  emits : List KEmit
  warned_null : Bool
  errored_no_audio : Bool
  deriving DecidableEq

/-- The `try` block `handle_input_from_klat` runs when audio was passed:
transcribe the file and, when the server needs the transcription, return
`transcriptions[0]` to it via `css.emit`.  Any exception — a decode
failure, or the `IndexError`/`TypeError` of `transcriptions[0]` on an
empty or `None` transcription list (raised while the `css.emit` arguments
are built, so before that emission) — falls to the `except` branch, which
substitutes `[shout_text]` and drops the audio context. -/
def klatSttAttempt (env : SttEnv) (msg : KlatMsg) (path : String)
    (stt_language request_id : String) :
    List KEmit × Option ParserData × PyList :=
  match (_get_stt_from_file env path (some stt_language)).2 with
  | .ok res =>
      if msg.need_transcription then
        match res.2.2 with
        | some (t0 :: rest) =>
            ([KEmit.css t0 request_id], res.2.1, some (t0 :: rest))
        | some [] => ([], none, some [msg.shout_text])
        | none => ([], none, some [msg.shout_text])
      else ([], res.2.1, res.2.2)
  | .error _ => ([], none, some [msg.shout_text])

/-- `handle_input_from_klat`: resolve the user's STT language and profiles
from the chat-user database (`db_lang`, `db_profiles`; `get_nick_profiles`
raises `TypeError` on a `None` argument, caught and retried with
`[nick]`), pick the transcriptions (from the audio file when passed, else
the pre-supplied `shout_text`), guard against a falsy transcription list,
and publish the utterance to skills with the legacy klat routing fields.
The `ident` is a fresh `time.time()` value.

`klatUtterMsg` is the published message: payload
`{"utterances": ..., "lang": ...}` with the legacy klat routing context
(client tag, `klat_data`, nick profiles, `cc_data` built from
`transcriptions[0]`). -/
def klatUtterMsg (db_lang : String)
    (db_profiles : List String → List String) (msg : KlatMsg)
    (audio_context : Option ParserData) (transcriptions : PyList) : UMsg :=
  let nick := pyStr msg.user
  let request_id := "sid-" ++ pyStr msg.sid ++ "-"
    ++ pyStr msg.socketIdEncrypted ++ "-" ++ nick ++ "-" ++ pyStr msg.nano
  let nick_profiles :=
    match msg.cid_nicks with
    | some l => db_profiles l
    | none => db_profiles [nick]
  let mobile := msg.nano = some "mobile"
  let client :=
    if mobile then "mobile"
    else if msg.nano = some "true" then "nano" else "klat"
  ⟨"recognizer_loop:utterance", transcriptions, some db_lang,
    ⟨"mycroft_listener", some "klat", ["skills"], some IdentV.clock,
      msg.raw_audio, audio_context, some client, some mobile, some nick,
      some false,
      some [("cid", pyStr msg.cid), ("sid", pyStr msg.sid),
        ("title", pyStr msg.title), ("nano", pyStr msg.nano),
        ("request_id", request_id)],
      some nick_profiles, some ((transcriptions.getD []).headD none), []⟩⟩

def handle_input_from_klat (env : SttEnv) (bus : Bus) (db_lang : String)
    (db_profiles : List String → List String) (msg : KlatMsg) : KlatOut :=
  let nick := pyStr msg.user
  let stt_language := db_lang
  let request_id := "sid-" ++ pyStr msg.sid ++ "-"
    ++ pyStr msg.socketIdEncrypted ++ "-" ++ nick ++ "-" ++ pyStr msg.nano
  let picked :=
    if strTruthy msg.raw_audio then
      some (klatSttAttempt env msg (msg.raw_audio.getD "") stt_language
        request_id)
    else if msg.need_transcription then none
    else some ([], none, some [msg.shout_text])
  match picked with
  | none => ⟨[], false, true⟩
  | some (pre, audio_context, transcriptions) =>
      if listTruthy transcriptions then
        let eres := _emit_utterance_to_skills bus
          (klatUtterMsg db_lang db_profiles msg audio_context transcriptions)
        ⟨pre ++ eres.emitted.map KEmit.utter, false, false⟩
      else
        ⟨pre, true, false⟩

namespace MutexModel

/-!
A labelled transition system for the `with lock:` block of
`_get_stt_from_file` (`API_STT.stream_start` / `stream_data` /
`stream_stop` under the module-level `threading.Lock`).  Each of `N`
concurrent transcription requests is a thread that acquires the lock, runs
one full open→feed→close cycle, and releases it; the trace records the
engine calls in order.  The lock is the usual one: it can be acquired only
when free, and only its holder's thread can act on the engine.
-/

/-- One recorded call on the shared streaming engine, tagged with the
thread (request) that made it. -/
inductive Ev
  | start (t : Nat)
  | data (t : Nat)
  | stop (t : Nat)
  deriving DecidableEq

/-- Where one thread is in its `_get_stt_from_file` critical section. -/
inductive Phase
  | ready
  | acquired
  | started
  | stopped
  | done
  deriving DecidableEq

/-- The shared state: who holds the lock, each thread's phase, and the
trace of engine calls so far (oldest first). -/
structure St where
  owner : Option Nat
  phase : Nat → Phase
  trace : List Ev

/-- Pointwise update of the phase map. -/
def pupd (p : Nat → Phase) (t : Nat) (v : Phase) : Nat → Phase :=
  fun u => if u = t then v else p u

/-- The initial state: lock free, every thread about to request it. -/
def init : St := ⟨none, fun _ => Phase.ready, []⟩

/-- One interleaving step of the `N` requests.  `stream_data` may repeat
(one step per fed chunk) and may be skipped entirely (an empty stream). -/
inductive Step (N : Nat) : St → St → Prop
  | acquire (t : Nat) (s : St) (ht : t < N) (hp : s.phase t = Phase.ready)
      (ho : s.owner = none) :
      Step N s ⟨some t, pupd s.phase t Phase.acquired, s.trace⟩
  | stream_start (t : Nat) (s : St) (ht : t < N)
      (hp : s.phase t = Phase.acquired) (ho : s.owner = some t) :
      Step N s ⟨some t, pupd s.phase t Phase.started, s.trace ++ [Ev.start t]⟩
  | stream_data (t : Nat) (s : St) (ht : t < N)
      (hp : s.phase t = Phase.started) (ho : s.owner = some t) :
      Step N s ⟨some t, s.phase, s.trace ++ [Ev.data t]⟩
  | stream_stop (t : Nat) (s : St) (ht : t < N)
      (hp : s.phase t = Phase.started) (ho : s.owner = some t) :
      Step N s ⟨some t, pupd s.phase t Phase.stopped, s.trace ++ [Ev.stop t]⟩
  | release (t : Nat) (s : St) (ht : t < N)
      (hp : s.phase t = Phase.stopped) (ho : s.owner = some t) :
      Step N s ⟨none, pupd s.phase t Phase.done, s.trace⟩

/-- Any interleaved execution of the `N` requests. -/
def Steps (N : Nat) : St → St → Prop := Relation.ReflTransGen (Step N)

/-- One complete open→feed→close cycle of thread `t` with `k` fed chunks. -/
def block (t k : Nat) : List Ev :=
  Ev.start t :: (List.replicate k (Ev.data t) ++ [Ev.stop t])

/-- The concatenation of complete cycles, one per listed `(thread, chunks)`
pair, in order. -/
def blocksJoin : List (Nat × Nat) → List Ev
  | [] => []
  | b :: bs => block b.1 b.2 ++ blocksJoin bs

/-- A thread that is neither inside its critical section nor holding any
engine resource. -/
def Quiet (s : St) (t : Nat) : Prop :=
  s.phase t = Phase.ready ∨ s.phase t = Phase.done

/-- The completed-cycles list `bs` names exactly the threads already done. -/
def DoneSet (bs : List (Nat × Nat)) (s : St) : Prop :=
  ∀ u, u ∈ bs.map Prod.fst ↔ s.phase u = Phase.done

/-- The inductive invariant: the trace is the completed cycles in some
order, followed by at most one cycle in progress, owned by the lock
holder; everyone else is quiet. -/
def Inv (s : St) : Prop :=
  ∃ bs : List (Nat × Nat), (bs.map Prod.fst).Nodup ∧ DoneSet bs s ∧
    ((s.owner = none ∧ (∀ u, Quiet s u) ∧ s.trace = blocksJoin bs) ∨
      (∃ t, s.owner = some t ∧ (∀ u, u ≠ t → Quiet s u) ∧
        ((s.phase t = Phase.acquired ∧ s.trace = blocksJoin bs) ∨
          (∃ k, s.phase t = Phase.started ∧
            s.trace = blocksJoin bs ++ Ev.start t :: List.replicate k (Ev.data t)) ∨
          (∃ k, s.phase t = Phase.stopped ∧
            s.trace = blocksJoin bs ++ block t k))))

/-- Threads beyond the `N` requests never move. -/
def HighReady (N : Nat) (s : St) : Prop :=
  ∀ t, N ≤ t → s.phase t = Phase.ready

theorem blocksJoin_append (bs cs : List (Nat × Nat)) :
    blocksJoin (bs ++ cs) = blocksJoin bs ++ blocksJoin cs := by
  induction bs with
  | nil => simp [blocksJoin]
  | cons b bs ih => simp [blocksJoin, ih]

theorem pupd_same (p : Nat → Phase) (t : Nat) (v : Phase) : pupd p t v t = v := by
  simp [pupd]

theorem pupd_other (p : Nat → Phase) (t : Nat) (v : Phase) {u : Nat}
    (h : u ≠ t) : pupd p t v u = p u := by
  simp [pupd, h]

theorem inv_init : Inv init := by
  refine ⟨[], by simp, ?_, Or.inl ⟨rfl, fun u => Or.inl rfl, rfl⟩⟩
  intro u
  simp [init, DoneSet]

theorem inv_step {N : Nat} {s s' : St} (h : Step N s s') (hI : Inv s) :
    Inv s' := by
  obtain ⟨bs, hnd, hds, hrest⟩ := hI
  cases h with
  | acquire t _ ht hp ho =>
      rcases hrest with ⟨-, hq, htr⟩ | ⟨t', ho', -⟩
      · refine ⟨bs, hnd, ?_, Or.inr ⟨t, rfl, ?_, Or.inl ⟨pupd_same _ _ _, htr⟩⟩⟩
        · intro u
          by_cases hu : u = t
          · subst hu
            simp only [pupd_same]
            constructor
            · intro hmem
              exact absurd ((hds u).mp hmem) (by rw [hp]; simp)
            · intro hcon; exact absurd hcon (by simp)
          · simp only [pupd_other _ _ _ hu]; exact hds u
        · intro u hu
          unfold Quiet
          simp only [pupd_other _ _ _ hu]
          exact hq u
      · rw [ho] at ho'; exact absurd ho' (by simp)
  | stream_start t _ ht hp ho =>
      rcases hrest with ⟨ho', -, -⟩ | ⟨t', ho', hq, hcase⟩
      · rw [ho] at ho'; exact absurd ho' (by simp)
      · rw [ho] at ho'
        injection ho' with ht'
        subst ht'
        rcases hcase with ⟨-, htr⟩ | ⟨k, hpt, -⟩ | ⟨k, hpt, -⟩
        · refine ⟨bs, hnd, ?_, Or.inr ⟨t, rfl, ?_, Or.inr (Or.inl
            ⟨0, pupd_same _ _ _, ?_⟩)⟩⟩
          · intro u
            by_cases hu : u = t
            · subst hu
              simp only [pupd_same]
              constructor
              · intro hmem
                exact absurd ((hds u).mp hmem) (by rw [hp]; simp)
              · intro hcon; exact absurd hcon (by simp)
            · simp only [pupd_other _ _ _ hu]; exact hds u
          · intro u hu
            unfold Quiet
            simp only [pupd_other _ _ _ hu]
            exact hq u hu
          · rw [htr]; simp
        · rw [hp] at hpt; exact absurd hpt (by simp)
        · rw [hp] at hpt; exact absurd hpt (by simp)
  | stream_data t _ ht hp ho =>
      rcases hrest with ⟨ho', -, -⟩ | ⟨t', ho', hq, hcase⟩
      · rw [ho] at ho'; exact absurd ho' (by simp)
      · rw [ho] at ho'
        injection ho' with ht'
        subst ht'
        rcases hcase with ⟨hpt, -⟩ | ⟨k, hpt, htr⟩ | ⟨k, hpt, -⟩
        · rw [hp] at hpt; exact absurd hpt (by simp)
        · refine ⟨bs, hnd, hds, Or.inr ⟨t, rfl, hq, Or.inr (Or.inl
            ⟨k + 1, hpt, ?_⟩)⟩⟩
          rw [htr]
          simp [List.replicate_succ']
        · rw [hp] at hpt; exact absurd hpt (by simp)
  | stream_stop t _ ht hp ho =>
      rcases hrest with ⟨ho', -, -⟩ | ⟨t', ho', hq, hcase⟩
      · rw [ho] at ho'; exact absurd ho' (by simp)
      · rw [ho] at ho'
        injection ho' with ht'
        subst ht'
        rcases hcase with ⟨hpt, -⟩ | ⟨k, hpt, htr⟩ | ⟨k, hpt, -⟩
        · rw [hp] at hpt; exact absurd hpt (by simp)
        · refine ⟨bs, hnd, ?_, Or.inr ⟨t, rfl, ?_, Or.inr (Or.inr
            ⟨k, pupd_same _ _ _, ?_⟩)⟩⟩
          · intro u
            by_cases hu : u = t
            · subst hu
              simp only [pupd_same]
              constructor
              · intro hmem
                exact absurd ((hds u).mp hmem) (by rw [hp]; simp)
              · intro hcon; exact absurd hcon (by simp)
            · simp only [pupd_other _ _ _ hu]; exact hds u
          · intro u hu
            unfold Quiet
            simp only [pupd_other _ _ _ hu]
            exact hq u hu
          · rw [htr]; simp [block]
        · rw [hp] at hpt; exact absurd hpt (by simp)
  | release t _ ht hp ho =>
      rcases hrest with ⟨ho', -, -⟩ | ⟨t', ho', hq, hcase⟩
      · rw [ho] at ho'; exact absurd ho' (by simp)
      · rw [ho] at ho'
        injection ho' with ht'
        subst ht'
        rcases hcase with ⟨hpt, -⟩ | ⟨k, hpt, -⟩ | ⟨k, hpt, htr⟩
        · rw [hp] at hpt; exact absurd hpt (by simp)
        · rw [hp] at hpt; exact absurd hpt (by simp)
        · have htnot : t ∉ bs.map Prod.fst := by
            intro hmem
            exact absurd ((hds t).mp hmem) (by rw [hp]; simp)
          refine ⟨bs ++ [(t, k)], ?_, ?_, Or.inl ⟨rfl, ?_, ?_⟩⟩
          · rw [List.map_append]
            simp [List.nodup_append, hnd, htnot]
          · intro u
            rw [List.map_append]
            by_cases hu : u = t
            · subst hu
              simp only [pupd_same]
              simp
            · simp only [pupd_other _ _ _ hu]
              simp only [List.mem_append]
              constructor
              · rintro (hm | hm)
                · exact (hds u).mp hm
                · simp at hm; exact absurd hm hu
              · intro hdone
                exact Or.inl ((hds u).mpr hdone)
          · intro u
            by_cases hu : u = t
            · subst hu; right; exact pupd_same _ _ _
            · unfold Quiet
              simp only [pupd_other _ _ _ hu]
              exact hq u hu
          · rw [blocksJoin_append, htr]
            simp [blocksJoin]

theorem inv_steps {N : Nat} {s : St} (h : Steps N init s) : Inv s := by
  induction h with
  | refl => exact inv_init
  | tail _ hbc ih => exact inv_step hbc ih

theorem highReady_step {N : Nat} {s s' : St} (h : Step N s s')
    (hH : HighReady N s) : HighReady N s' := by
  cases h with
  | acquire t _ ht hp ho =>
      intro u hu
      simp only [pupd_other _ _ _ (show u ≠ t by omega)]
      exact hH u hu
  | stream_start t _ ht hp ho =>
      intro u hu
      simp only [pupd_other _ _ _ (show u ≠ t by omega)]
      exact hH u hu
  | stream_data t _ ht hp ho =>
      intro u hu
      exact hH u hu
  | stream_stop t _ ht hp ho =>
      intro u hu
      simp only [pupd_other _ _ _ (show u ≠ t by omega)]
      exact hH u hu
  | release t _ ht hp ho =>
      intro u hu
      simp only [pupd_other _ _ _ (show u ≠ t by omega)]
      exact hH u hu

theorem highReady_steps {N : Nat} {s : St} (h : Steps N init s) :
    HighReady N s := by
  induction h with
  | refl => intro u _; rfl
  | tail _ hbc ih => exact highReady_step hbc ih

/-- Recognize a `stream_start` call in the trace. -/
def isStartEv : Ev → Bool
  | .start _ => true
  | _ => false

/-- Recognize a `stream_stop` call in the trace. -/
def isStopEv : Ev → Bool
  | .stop _ => true
  | _ => false

/-- Occurrences of one event in a trace. -/
def cnt (e : Ev) (l : List Ev) : Nat := l.countP (fun x => x = e)

theorem cnt_append (e : Ev) (l₁ l₂ : List Ev) :
    cnt e (l₁ ++ l₂) = cnt e l₁ + cnt e l₂ := List.countP_append _ _ _

theorem cnt_eq_zero {e : Ev} {l : List Ev} : cnt e l = 0 ↔ e ∉ l := by
  unfold cnt
  rw [List.countP_eq_zero]
  constructor
  · intro h hmem
    exact absurd (h e hmem) (by simp)
  · intro h x hx
    simp only [decide_eq_true_eq]
    intro hxe
    exact h (hxe ▸ hx)

theorem cnt_replicate_ne {a e : Ev} (k : Nat) (h : a ≠ e) :
    cnt e (List.replicate k a) = 0 := by
  rw [cnt_eq_zero]
  intro hmem
  exact h (List.eq_of_mem_replicate hmem).symm

theorem cnt_cons (e x : Ev) (l : List Ev) :
    cnt e (x :: l) = cnt e l + if x = e then 1 else 0 := by
  unfold cnt
  rw [List.countP_cons]
  simp

theorem cnt_block_start (t k : Nat) : cnt (Ev.start t) (block t k) = 1 := by
  unfold block
  rw [cnt_cons, cnt_append, cnt_replicate_ne k (by simp), cnt_cons]
  simp [cnt]

theorem cnt_block_stop (t k : Nat) : cnt (Ev.stop t) (block t k) = 1 := by
  unfold block
  rw [cnt_cons, cnt_append, cnt_replicate_ne k (by simp), cnt_cons]
  simp [cnt]

theorem mem_block {x : Ev} {t k : Nat} (h : x ∈ block t k) :
    x = Ev.start t ∨ x = Ev.data t ∨ x = Ev.stop t := by
  unfold block at h
  rcases List.mem_cons.mp h with h1 | h1
  · exact Or.inl h1
  · rcases List.mem_append.mp h1 with h2 | h2
    · exact Or.inr (Or.inl (List.eq_of_mem_replicate h2))
    · simp at h2
      exact Or.inr (Or.inr h2)

theorem mem_blocksJoin {x : Ev} :
    ∀ {bs : List (Nat × Nat)}, x ∈ blocksJoin bs →
      ∃ p ∈ bs, x ∈ block p.1 p.2 := by
  intro bs
  induction bs with
  | nil => intro h; exact absurd h (by simp [blocksJoin])
  | cons p bs ih =>
      intro h
      rcases List.mem_append.mp (by simpa [blocksJoin] using h) with h1 | h1
      · exact ⟨p, List.mem_cons_self _ _, h1⟩
      · obtain ⟨q, hq, hx⟩ := ih h1
        exact ⟨q, List.mem_cons_of_mem _ hq, hx⟩

theorem start_notin_join {a : Nat} {bs : List (Nat × Nat)}
    (h : a ∉ bs.map Prod.fst) : Ev.start a ∉ blocksJoin bs := by
  intro hmem
  obtain ⟨p, hp, hx⟩ := mem_blocksJoin hmem
  rcases mem_block hx with h1 | h1 | h1 <;> simp at h1
  exact h (h1 ▸ List.mem_map_of_mem Prod.fst hp)

theorem stop_notin_join {a : Nat} {bs : List (Nat × Nat)}
    (h : a ∉ bs.map Prod.fst) : Ev.stop a ∉ blocksJoin bs := by
  intro hmem
  obtain ⟨p, hp, hx⟩ := mem_blocksJoin hmem
  rcases mem_block hx with h1 | h1 | h1 <;> simp at h1
  exact h (h1 ▸ List.mem_map_of_mem Prod.fst hp)

theorem peel_prefix {e : Ev} :
    ∀ (pre : List Ev) {J u R : List Ev}, pre ++ J = u ++ e :: R →
      e ∉ pre → ∃ u', u = pre ++ u' ∧ J = u' ++ e :: R := by
  intro pre
  induction pre with
  | nil =>
      intro J u R h _
      exact ⟨u, rfl, h⟩
  | cons p pre' ih =>
      intro J u R h hnot
      cases u with
      | nil =>
          simp only [List.cons_append, List.nil_append] at h
          have hpe : p = e := (List.cons.injEq _ _ _ _ ▸ h).1
          exact absurd (hpe ▸ List.mem_cons_self p pre') hnot
      | cons q u'' =>
          simp only [List.cons_append] at h
          have h1 : p = q ∧ pre' ++ J = u'' ++ e :: R :=
            List.cons.injEq _ _ _ _ ▸ h
          obtain ⟨u', hu, hJ⟩ :=
            ih h1.2 (fun hmem => hnot (List.mem_cons_of_mem _ hmem))
          exact ⟨u', by rw [h1.1, hu, List.cons_append], hJ⟩

theorem unique_split {e : Ev} :
    ∀ (xs : List Ev) {ys v w : List Ev}, xs ++ e :: ys = v ++ e :: w →
      e ∉ xs → e ∉ v → xs = v ∧ ys = w := by
  intro xs
  induction xs with
  | nil =>
      intro ys v w h _ hv
      cases v with
      | nil =>
          simp only [List.nil_append] at h
          exact ⟨rfl, (List.cons.injEq _ _ _ _ ▸ h).2⟩
      | cons q v' =>
          simp only [List.nil_append, List.cons_append] at h
          have : e = q := (List.cons.injEq _ _ _ _ ▸ h).1
          exact absurd (this ▸ List.mem_cons_self q v') hv
  | cons x xs' ih =>
      intro ys v w h hxs hv
      cases v with
      | nil =>
          simp only [List.cons_append, List.nil_append] at h
          have : x = e := (List.cons.injEq _ _ _ _ ▸ h).1
          exact absurd (this ▸ List.mem_cons_self x xs') hxs
      | cons q v' =>
          simp only [List.cons_append] at h
          have h1 : x = q ∧ xs' ++ e :: ys = v' ++ e :: w :=
            List.cons.injEq _ _ _ _ ▸ h
          obtain ⟨hxv, hyw⟩ := ih h1.2
            (fun hmem => hxs (List.mem_cons_of_mem _ hmem))
            (fun hmem => hv (List.mem_cons_of_mem _ hmem))
          exact ⟨by rw [h1.1, hxv], hyw⟩

theorem noForeign :
    ∀ (bs : List (Nat × Nat)), (bs.map Prod.fst).Nodup →
      ∀ (a b : Nat) (u v w : List Ev),
        blocksJoin bs = u ++ Ev.start a :: (v ++ Ev.stop a :: w) →
        Ev.data b ∈ v → b = a := by
  intro bs
  induction bs with
  | nil =>
      intro _ a b u v w h _
      have hlen := congrArg List.length h
      simp [blocksJoin] at hlen
      omega
  | cons p bs ih =>
      obtain ⟨t, k⟩ := p
      intro hnd a b u v w h hmem
      have hnd' : (t :: bs.map Prod.fst).Nodup := by simpa using hnd
      have hnotin : t ∉ bs.map Prod.fst := (List.nodup_cons.mp hnd').1
      have hndtail : (bs.map Prod.fst).Nodup := (List.nodup_cons.mp hnd').2
      have hJ : block t k ++ blocksJoin bs =
          u ++ Ev.start a :: (v ++ Ev.stop a :: w) := by
        simpa [blocksJoin] using h
      by_cases hat : a = t
      · subst hat
        -- the decomposition must align with the head block
        have hstartJ : Ev.start a ∉ blocksJoin bs := start_notin_join hnotin
        have hstopJ : Ev.stop a ∉ blocksJoin bs := stop_notin_join hnotin
        have hcL : cnt (Ev.start a) (block a k ++ blocksJoin bs) = 1 := by
          rw [cnt_append, cnt_block_start, cnt_eq_zero.mpr hstartJ]
        have hcR : cnt (Ev.start a)
            (u ++ Ev.start a :: (v ++ Ev.stop a :: w)) =
            cnt (Ev.start a) u +
              (cnt (Ev.start a) (v ++ Ev.stop a :: w) + 1) := by
          rw [cnt_append, cnt_cons]
          simp
        have hu0 : cnt (Ev.start a) u = 0 := by
          rw [hJ, hcR] at hcL
          omega
        have hunil : u = [] := by
          cases u with
          | nil => rfl
          | cons x u' =>
              exfalso
              have hxa : x = Ev.start a := by
                have := congrArg (fun l => l.head?) hJ
                simpa [block, eq_comm] using this
              rw [hxa, cnt_cons] at hu0
              simp at hu0
        subst hunil
        rw [List.nil_append] at hJ
        have hJ' : Ev.start a :: (List.replicate k (Ev.data a) ++
            Ev.stop a :: blocksJoin bs) =
            Ev.start a :: (v ++ Ev.stop a :: w) := by
          simpa [block, List.append_assoc] using hJ
        have htail : List.replicate k (Ev.data a) ++
            Ev.stop a :: blocksJoin bs = v ++ Ev.stop a :: w :=
          (List.cons.injEq _ _ _ _ ▸ hJ').2
        -- stop a occurs once overall, so it is absent from v
        have hstopv : Ev.stop a ∉ v := by
          intro hv
          have hcL' : cnt (Ev.stop a)
              (List.replicate k (Ev.data a) ++ Ev.stop a :: blocksJoin bs) =
              1 := by
            rw [cnt_append, cnt_replicate_ne k (by simp), cnt_cons,
              cnt_eq_zero.mpr hstopJ]
            simp
          have hvpos : 1 ≤ cnt (Ev.stop a) v := by
            have : cnt (Ev.stop a) v ≠ 0 := fun h0 => (cnt_eq_zero.mp h0) hv
            omega
          have hcR' : cnt (Ev.stop a) (v ++ Ev.stop a :: w) =
              cnt (Ev.stop a) v + (cnt (Ev.stop a) w + 1) := by
            rw [cnt_append, cnt_cons]
            simp
          rw [htail, hcR'] at hcL'
          omega
        have hsplit := unique_split (List.replicate k (Ev.data a)) htail
          (fun hmem' => by
            have := List.eq_of_mem_replicate hmem'
            exact absurd this (by simp))
          hstopv
        have hveq : v = List.replicate k (Ev.data a) := hsplit.1.symm
        rw [hveq] at hmem
        have := List.eq_of_mem_replicate hmem
        simpa using this
      · -- the whole decomposition lies in the tail
        have hstartblk : Ev.start a ∉ block t k := by
          intro hx
          rcases mem_block hx with h1 | h1 | h1 <;> simp at h1
          exact hat h1
        obtain ⟨u', _, hJ'⟩ := peel_prefix (block t k) hJ hstartblk
        exact ih hndtail a b u' v w hJ' hmem

theorem cnt_join_start (bs : List (Nat × Nat)) :
    (blocksJoin bs).countP isStartEv = bs.length := by
  induction bs with
  | nil => simp [blocksJoin]
  | cons p bs ih =>
      have hblk : (block p.1 p.2).countP isStartEv = 1 := by
        unfold block
        rw [List.countP_cons, List.countP_append, List.countP_cons]
        have : (List.replicate p.2 (Ev.data p.1)).countP isStartEv = 0 := by
          rw [List.countP_eq_zero]
          intro x hx
          rw [List.eq_of_mem_replicate hx]
          simp [isStartEv]
        simp [this, isStartEv]
      simp [blocksJoin, List.countP_append, hblk, ih]
      omega

theorem cnt_join_stop (bs : List (Nat × Nat)) :
    (blocksJoin bs).countP isStopEv = bs.length := by
  induction bs with
  | nil => simp [blocksJoin]
  | cons p bs ih =>
      have hblk : (block p.1 p.2).countP isStopEv = 1 := by
        unfold block
        rw [List.countP_cons, List.countP_append, List.countP_cons]
        have : (List.replicate p.2 (Ev.data p.1)).countP isStopEv = 0 := by
          rw [List.countP_eq_zero]
          intro x hx
          rw [List.eq_of_mem_replicate hx]
          simp [isStopEv]
        simp [this, isStopEv]
      simp [blocksJoin, List.countP_append, hblk, ih]
      omega

/-- C1 main statement: in any execution of `N` concurrent requests that
runs every request's `with lock:` block to completion, the engine-call
trace is exactly `N` complete open→feed→close cycles, one per request, laid
end to end: the cycle owners are a permutation of the `N` request ids, the
trace carries exactly `N` `stream_start` and `N` `stream_stop` calls, and
no `stream_data` call of one request lies between the `stream_start` and
`stream_stop` of another. -/
theorem streaming_lock_serializes (N : Nat) (s : St)
    (hrun : Steps N init s) (hterm : ∀ t, t < N → s.phase t = Phase.done) :
    ∃ bs : List (Nat × Nat),
      s.trace = blocksJoin bs ∧
      (bs.map Prod.fst).Perm (List.range N) ∧
      s.trace.countP isStartEv = N ∧
      s.trace.countP isStopEv = N ∧
      (∀ a b u v w, s.trace = u ++ Ev.start a :: (v ++ Ev.stop a :: w) →
        Ev.data b ∈ v → b = a) := by
  have hI := inv_steps hrun
  have hH := highReady_steps hrun
  obtain ⟨bs, hnd, hds, hrest⟩ := hI
  rcases hrest with ⟨-, -, htr⟩ | ⟨t, -, -, hcase⟩
  · have hmem : ∀ u, u ∈ bs.map Prod.fst ↔ u ∈ List.range N := by
      intro u
      rw [List.mem_range, hds u]
      constructor
      · intro hdone
        by_contra hlt
        rw [hH u (by omega)] at hdone
        exact absurd hdone (by simp)
      · intro hlt
        exact hterm u hlt
    have hperm : (bs.map Prod.fst).Perm (List.range N) :=
      (List.perm_ext_iff_of_nodup hnd (List.nodup_range N)).mpr hmem
    have hlen : bs.length = N := by
      have := hperm.length_eq
      simpa using this
    refine ⟨bs, htr, hperm, ?_, ?_, ?_⟩
    · rw [htr, cnt_join_start, hlen]
    · rw [htr, cnt_join_stop, hlen]
    · intro a b u v w hdec hmem'
      exact noForeign bs hnd a b u v w (htr.symm.trans hdec) hmem'
  · exfalso
    rcases hcase with ⟨hpt, -⟩ | ⟨k, hpt, -⟩ | ⟨k, hpt, -⟩ <;>
      by_cases htN : t < N
    · rw [hterm t htN] at hpt; exact absurd hpt (by simp)
    · rw [hH t (by omega)] at hpt; exact absurd hpt (by simp)
    · rw [hterm t htN] at hpt; exact absurd hpt (by simp)
    · rw [hH t (by omega)] at hpt; exact absurd hpt (by simp)
    · rw [hterm t htN] at hpt; exact absurd hpt (by simp)
    · rw [hH t (by omega)] at hpt; exact absurd hpt (by simp)

/-- The final state of one concrete interleaving of two requests (request 0
feeds one chunk, request 1 an empty stream). -/
def demoFinal : St :=
  ⟨none,
    pupd (pupd (pupd (pupd (pupd (pupd (pupd (pupd (fun _ => Phase.ready)
      0 Phase.acquired) 0 Phase.started) 0 Phase.stopped) 0 Phase.done)
      1 Phase.acquired) 1 Phase.started) 1 Phase.stopped) 1 Phase.done,
    [Ev.start 0, Ev.data 0, Ev.stop 0, Ev.start 1, Ev.stop 1]⟩

theorem demo_run : Steps 2 init demoFinal := by
  have h0 : Steps 2 init init := Relation.ReflTransGen.refl
  have h1 := Relation.ReflTransGen.tail h0
    (Step.acquire 0 init (by decide) rfl rfl)
  have h2 := Relation.ReflTransGen.tail h1
    (Step.stream_start 0 _ (by decide) rfl rfl)
  have h3 := Relation.ReflTransGen.tail h2
    (Step.stream_data 0 _ (by decide) rfl rfl)
  have h4 := Relation.ReflTransGen.tail h3
    (Step.stream_stop 0 _ (by decide) rfl rfl)
  have h5 := Relation.ReflTransGen.tail h4
    (Step.release 0 _ (by decide) rfl rfl)
  have h6 := Relation.ReflTransGen.tail h5
    (Step.acquire 1 _ (by decide) rfl rfl)
  have h7 := Relation.ReflTransGen.tail h6
    (Step.stream_start 1 _ (by decide) rfl rfl)
  have h8 := Relation.ReflTransGen.tail h7
    (Step.stream_stop 1 _ (by decide) rfl rfl)
  have h9 := Relation.ReflTransGen.tail h8
    (Step.release 1 _ (by decide) rfl rfl)
  exact h9

/-- C1 witness: the two-request interleaving above really serializes. -/
theorem streaming_lock_serializes_witness :
    ∃ bs : List (Nat × Nat),
      demoFinal.trace = blocksJoin bs ∧
      (bs.map Prod.fst).Perm (List.range 2) ∧
      demoFinal.trace.countP isStartEv = 2 ∧
      demoFinal.trace.countP isStopEv = 2 ∧
      (∀ a b u v w,
        demoFinal.trace = u ++ Ev.start a :: (v ++ Ev.stop a :: w) →
        Ev.data b ∈ v → b = a) :=
  streaming_lock_serializes 2 demoFinal demo_run
    (by
      intro t ht
      interval_cases t <;> rfl)

end MutexModel

/-- When the outbound context carries an `ident`, one publish call emits
exactly one message and returns the acknowledgment outcome, logging an
error exactly on timeout. -/
theorem emit_with_ident_eq (bus : Bus) (M : UMsg) (i : IdentV)
    (h : M.context.ident = some i) :
    _emit_utterance_to_skills bus M =
      ⟨[M], !ackWithin bus M 10, .ok (ackWithin bus M 10)⟩ := by
  unfold _emit_utterance_to_skills
  rw [h]
  by_cases hack : ackWithin bus M 10 = true <;>
    simp [wait_for_response, hack]

/-- A bus on which no acknowledgment ever arrives. -/
def busNever : Bus := ⟨fun _ => none⟩

/-- A bus on which every acknowledgment arrives after 5 time units. -/
def busAt5 : Bus := ⟨fun _ => some 5⟩

/-- An outbound utterance message whose context has no `ident` key. -/
def umsgNoIdent : UMsg :=
  ⟨"recognizer_loop:utterance", some [some "hi"], some "en-us",
    ⟨"mycroft_listener", some "audio", ["skills"], none, none, none, none,
      none, none, none, none, none, none, []⟩⟩

/-- An outbound utterance message whose context carries an `ident`. -/
def umsgWithIdent : UMsg :=
  ⟨"recognizer_loop:utterance", some [some "hi"], some "en-us",
    ⟨"mycroft_listener", some "audio", ["skills"], some (IdentV.str "id-1"),
      none, none, none, none, none, none, none, none, none, []⟩⟩

/-- C4 counterexample: a publish call whose context lacks `ident` emits no
message at all and raises `KeyError` instead of returning `False`, against
the claim that every call emits exactly one message and never raises. -/
theorem publish_no_ident_counterexample :
    (_emit_utterance_to_skills busNever umsgNoIdent).emitted = [] ∧
    (_emit_utterance_to_skills busNever umsgNoIdent).result =
      .error (PyErr.keyError "ident") :=
  ⟨rfl, rfl⟩

/-- C4 (amended): for every publish call whose supplied context carries an
`ident`, exactly one outbound message is emitted; if no acknowledgment
arrives within the fixed 10-unit timeout the call logs at error severity
and returns `False` without raising and without re-emitting, and if a
reply arrives it returns `True`. -/
theorem publish_single_emit_and_timeout (bus : Bus) (m : UMsg) (i : IdentV)
    (hident : m.context.ident = some i) :
    (_emit_utterance_to_skills bus m).emitted = [m] ∧
    (_emit_utterance_to_skills bus m).result = .ok (ackWithin bus m 10) ∧
    (_emit_utterance_to_skills bus m).error_logged =
      !ackWithin bus m 10 := by
  rw [emit_with_ident_eq bus m i hident]
  exact ⟨rfl, rfl, rfl⟩

/-- C4 witness: on a bus that never replies, the publish call with an
`ident` emits its one message, returns `False` and logs the error. -/
theorem publish_single_emit_and_timeout_witness :
    (_emit_utterance_to_skills busNever umsgWithIdent).emitted =
      [umsgWithIdent] ∧
    (_emit_utterance_to_skills busNever umsgWithIdent).result =
      .ok (ackWithin busNever umsgWithIdent 10) ∧
    (_emit_utterance_to_skills busNever umsgWithIdent).error_logged =
      !ackWithin busNever umsgWithIdent 10 :=
  publish_single_emit_and_timeout busNever umsgWithIdent
    (IdentV.str "id-1") rfl

/-- A capture-loop utterance event that carries no `ident` anywhere. -/
def ueventNoIdent : UEvent :=
  ⟨some [some "hello"], some "en-us", some "raw", none, none⟩

/-- A capture-loop utterance event with an event-level `ident`. -/
def ueventWithIdent : UEvent :=
  ⟨some [some "hello"], some "en-us", some "raw", none,
    some (IdentV.str "abc")⟩

/-- C5 counterexample: a live utterance whose event and `data` carry no
`ident` makes the publish call raise `KeyError` before anything is
emitted — no fresh `ident` is generated, against the claim. -/
theorem utterance_no_ident_counterexample :
    (handle_utterance busNever ueventNoIdent).emitted = [] ∧
    (handle_utterance busNever ueventNoIdent).result =
      .error (PyErr.keyError "ident") :=
  ⟨rfl, rfl⟩

/-- C5 (amended): for a live utterance, the outbound message's `ident` is
taken from the supplied event/`data` context when present; when absent it
is not generated fresh — the publish call raises a key-lookup error before
emission and nothing is emitted. -/
theorem utterance_ident_taken_not_generated (bus : Bus) (ev : UEvent) :
    (∀ i, uIdent ev = some i →
      ∃ m, (handle_utterance bus ev).emitted = [m] ∧
        m.context.ident = some i) ∧
    (uIdent ev = none →
      (handle_utterance bus ev).emitted = [] ∧
      (handle_utterance bus ev).result = .error (PyErr.keyError "ident")) := by
  constructor
  · intro i h
    have hid : (uMessage ev).context.ident = some i := h
    unfold handle_utterance
    rw [emit_with_ident_eq bus (uMessage ev) i hid]
    exact ⟨uMessage ev, rfl, hid⟩
  · intro h
    have hid : (uMessage ev).context.ident = none := h
    unfold handle_utterance
    constructor <;> simp [_emit_utterance_to_skills, hid]

/-- C5 witness: an event-level `ident` is used as-is, and an `ident`-free
event makes the call fail before emitting. -/
theorem utterance_ident_taken_not_generated_witness :
    (∃ m, (handle_utterance busNever ueventWithIdent).emitted = [m] ∧
      m.context.ident = some (IdentV.str "abc")) ∧
    ((handle_utterance busNever ueventNoIdent).emitted = [] ∧
      (handle_utterance busNever ueventNoIdent).result =
        .error (PyErr.keyError "ident")) :=
  ⟨(utterance_ident_taken_not_generated busNever ueventWithIdent).1
      (IdentV.str "abc") rfl,
    (utterance_ident_taken_not_generated busNever ueventNoIdent).2 rfl⟩

/-- C7: with `mute_during_output` off, the audio-output handlers issue no
listener call, so no interpretation of mute/unmute changes any listener
state; with it on, audio-output-start always calls `mute` and
audio-output-end always calls the paired `unmute`. -/
theorem mute_during_output_symmetry {S : Type} (cfg : SpeechConfig)
    (muteOp unmuteOp : S → S) (s : S) :
    (cfg.listener.mute_during_output = false →
      applyLCalls muteOp unmuteOp (handle_audio_start cfg) s = s ∧
      applyLCalls muteOp unmuteOp (handle_audio_end cfg) s = s) ∧
    (cfg.listener.mute_during_output = true →
      handle_audio_start cfg = [LCall.mute] ∧
      handle_audio_end cfg = [LCall.unmute]) := by
  constructor
  · intro hoff
    simp [handle_audio_start, handle_audio_end, hoff, applyLCalls]
  · intro hon
    simp [handle_audio_start, handle_audio_end, hon]

/-- C7 witness: both configuration polarities at concrete states. -/
theorem mute_during_output_symmetry_witness :
    (applyLCalls (fun _ : Bool => true) (fun _ => false)
      (handle_audio_start ⟨⟨false⟩⟩) false = false) ∧
    handle_audio_start ⟨⟨true⟩⟩ = [LCall.mute] ∧
    handle_audio_end ⟨⟨true⟩⟩ = [LCall.unmute] :=
  ⟨((mute_during_output_symmetry ⟨⟨false⟩⟩ (fun _ : Bool => true)
      (fun _ => false) false).1 rfl).1,
    ((mute_during_output_symmetry ⟨⟨true⟩⟩ (fun _ : Bool => true)
      (fun _ => false) false).2 rfl).1,
    ((mute_during_output_symmetry ⟨⟨true⟩⟩ (fun _ : Bool => true)
      (fun _ => false) false).2 rfl).2⟩

/-- A filesystem with no files at all (streaming engine configured). -/
def envMissing : SttEnv :=
  ⟨fun _ => false, fun _ => ⟨[], 16000, 2⟩, fun _ => [], fun _ => false,
    some [some "hi"], some [some "hi"], fun _ => .ok [], true⟩

/-- A filesystem holding only `sample.wav`, a two-chunk stream, a streaming
engine configured. -/
def envSample : SttEnv :=
  ⟨fun p => p == "sample.wav", fun _ => ⟨[1, 2], 16000, 2⟩,
    fun _ => [[0], [1]], fun _ => false, some [some "hello"],
    some [some "hello"], fun _ => .ok [("speaker", "x")], true⟩

/-- C2: at a `get-stt` request for a file that does not exist, the handler
emits the `Not found!` error reply — but, the `return` being missing, then
still calls `_get_stt_from_file` (the decode is attempted) and emits a
second error reply from the `except` block, against the claim that exactly
the one error reply is sent and no transcription is attempted. -/
theorem get_stt_missing_file_double_reply :
    handle_get_stt envMissing ⟨some "missing.wav", some "en-us", some "t2"⟩ =
      ([SttEv.decode "missing.wav"],
        [("t2", ReplyData.err "missing.wav Not found!"),
          ("t2", ReplyData.err (reprE (PyErr.fileNotFound "missing.wav")))],
        none) := rfl

/-- C8: at a `get-stt` request that omits `lang`, the handler passes the
Python `None` through to `_get_stt_from_file` (the explicit argument
defeats the `"en-us"` signature default), so the streaming engine is
opened with a null language instead of the fixed default locale. -/
theorem get_stt_omitted_lang_is_null :
    (handle_get_stt envSample ⟨some "sample.wav", none, some "t8"⟩).1 =
      [SttEv.decode "sample.wav", SttEv.stream_start none,
        SttEv.stream_data [0], SttEv.stream_data [1], SttEv.stream_stop,
        SttEv.parse_context] := rfl

/-- C3: if the audio-context extractor fails after transcription, the
overall transcription still succeeds — the context degrades to absent and
the engine's transcript list is returned unchanged. -/
theorem stt_extractor_failure_degrades (env : SttEnv) (wav : String)
    (lang : Option String) (err : String)
    (hfile : env.isfile wav = true)
    (hext : env.extractor (env.decodeBuf wav) = .error err) :
    (_get_stt_from_file env wav lang).2 =
      .ok (env.decodeBuf wav, none,
        if env.apiStt then env.stopResult else env.batchResult) := by
  unfold _get_stt_from_file
  by_cases happ : env.apiStt = true <;>
    simp [hfile, happ, get_context, hext]

/-- An environment whose audio parser service always fails. -/
def envExtFail : SttEnv :=
  ⟨fun _ => true, fun _ => ⟨[7], 8000, 2⟩, fun _ => [], fun _ => false,
    some [some "ok"], some [some "ok"], fun _ => .error "boom", true⟩

/-- C3 witness: a failing extractor at a concrete request. -/
theorem stt_extractor_failure_degrades_witness :
    (_get_stt_from_file envExtFail "a.wav" (some "en-us")).2 =
      .ok (envExtFail.decodeBuf "a.wav", none,
        if envExtFail.apiStt then envExtFail.stopResult
        else envExtFail.batchResult) :=
  stt_extractor_failure_degrades envExtFail "a.wav" (some "en-us") "boom"
    rfl rfl

theorem feedChunks_stops_at_eof (env : SttEnv) :
    ∀ (xs : List (List Nat)) (c : List Nat) (ys : List (List Nat)),
      (∀ x ∈ xs, env.feedEof x = false) → env.feedEof c = true →
      feedChunks env (xs ++ c :: ys) =
        xs.map SttEv.stream_data ++ [SttEv.stream_data c] := by
  intro xs
  induction xs with
  | nil =>
      intro c ys _ hc
      simp [feedChunks, hc]
  | cons x xs ih =>
      intro c ys hxs hc
      have hx : env.feedEof x = false := hxs x (List.mem_cons_self _ _)
      simp [feedChunks, hx,
        ih c ys (fun y hy => hxs y (List.mem_cons_of_mem _ hy)) hc]

/-- C6: an `EOFError` raised while reading or feeding a chunk mid-stream is
a normal stream boundary: the feed loop exits (the remaining chunks are
never fed), `stream_stop` is still called, and its return value is the
transcript list of the result. -/
theorem stream_eof_is_normal_boundary (env : SttEnv) (wav : String)
    (lang : Option String) (xs : List (List Nat)) (c : List Nat)
    (ys : List (List Nat))
    (hfile : env.isfile wav = true) (happ : env.apiStt = true)
    (hchunks : env.chunks wav = xs ++ c :: ys)
    (hxs : ∀ x ∈ xs, env.feedEof x = false) (hc : env.feedEof c = true) :
    (_get_stt_from_file env wav lang).1 =
      SttEv.decode wav :: SttEv.stream_start lang ::
        (xs.map SttEv.stream_data ++ [SttEv.stream_data c] ++
          [SttEv.stream_stop, SttEv.parse_context]) ∧
    (_get_stt_from_file env wav lang).2 =
      .ok ((get_context env.extractor (env.decodeBuf wav)).1,
        (get_context env.extractor (env.decodeBuf wav)).2,
        env.stopResult) := by
  unfold _get_stt_from_file
  rw [hchunks]
  simp [hfile, happ, feedChunks_stops_at_eof env xs c ys hxs hc]

/-- A three-chunk stream where feeding the second chunk raises `EOFError`. -/
def envEof : SttEnv :=
  ⟨fun _ => true, fun _ => ⟨[1], 8000, 2⟩, fun _ => [[5], [6], [7]],
    fun ch => ch == [6], some [some "done"], none, fun _ => .ok [], true⟩

/-- C6 witness: the third chunk is never fed, `stream_stop` still runs and
its result is returned. -/
theorem stream_eof_is_normal_boundary_witness :
    (_get_stt_from_file envEof "b.wav" (some "en-us")).1 =
      SttEv.decode "b.wav" :: SttEv.stream_start (some "en-us") ::
        ([[5]].map SttEv.stream_data ++ [SttEv.stream_data [6]] ++
          [SttEv.stream_stop, SttEv.parse_context]) ∧
    (_get_stt_from_file envEof "b.wav" (some "en-us")).2 =
      .ok ((get_context envEof.extractor (envEof.decodeBuf "b.wav")).1,
        (get_context envEof.extractor (envEof.decodeBuf "b.wav")).2,
        envEof.stopResult) :=
  stream_eof_is_normal_boundary envEof "b.wav" (some "en-us") [[5]] [6]
    [[7]] rfl rfl rfl (by decide) (by decide)

/-- The klat `try` block never publishes a downstream utterance itself:
its only emission is the `css.emit` transcript return. -/
theorem klatSttAttempt_no_utter (env : SttEnv) (msg : KlatMsg)
    (path stt_language request_id : String) (m : UMsg) :
    KEmit.utter m ∉
      (klatSttAttempt env msg path stt_language request_id).1 := by
  unfold klatSttAttempt
  split
  · split
    · split <;> simp
    · simp
  · simp

/-- C9: for every `neon.audio_input` request whose inbound context carries
a (truthy) `klat_data` entry, the handler replies with a structured error
payload and never publishes the utterance downstream — `build_context`
fails (calling the context dictionary raises `TypeError`) before the
publish step, and any earlier failure is also converted to an error
reply. -/
theorem audio_input_klat_data_errors (env : SttEnv) (bus : Bus)
    (msg : AudioInputMsg) (hk : dictTruthy msg.ctx_klat_data = true) :
    (handle_audio_input env bus msg).2.2.1 = [] ∧
    ∃ e, (handle_audio_input env bus msg).2.1 =
      [(pyOrDefault msg.ctx_ident "neon.audio_input.response",
        AIReplyData.err e)] := by
  unfold handle_audio_input
  cases haf : msg.audio_file with
  | none => exact ⟨rfl, _, rfl⟩
  | some path =>
      have hbc : ∀ pd, build_context msg pd =
          .error (.typeError "dict object is not callable") := by
        intro pd
        unfold build_context
        simp [hk]
      cases hres : (_get_stt_from_file env path msg.lang).2 with
      | error e => simp [hres]
      | ok res => simp [hres, hbc]

/-- An audio-input request whose inbound context carries klat session
data. -/
def aiMsgKlat : AudioInputMsg :=
  ⟨some "sample.wav", some "en-us", some "t9", some "api", some "klat",
    some true, some "user1", some [("cid", "1")], some ["user1"]⟩

/-- C9 witness: a concrete klat-tagged audio-input request gets exactly an
error reply and no downstream publish. -/
theorem audio_input_klat_data_errors_witness :
    (handle_audio_input envSample busNever aiMsgKlat).2.2.1 = [] ∧
    ∃ e, (handle_audio_input envSample busNever aiMsgKlat).2.1 =
      [(pyOrDefault aiMsgKlat.ctx_ident "neon.audio_input.response",
        AIReplyData.err e)] :=
  audio_input_klat_data_errors envSample busNever aiMsgKlat rfl

/-- C10: in the legacy klat path, a falsy (empty or `None`) transcription
list at the guard makes the handler log the `Null Transcription!` warning
and return without publishing any downstream utterance; but when no audio
and no `shout_text` are given, the selected list is `[None]`, which is
truthy, passes the guard and is published. -/
theorem klat_null_transcription_guard (env : SttEnv) (bus : Bus)
    (db_lang : String) (db_profiles : List String → List String)
    (msg : KlatMsg) :
    (∀ pre actx txs,
      strTruthy msg.raw_audio = true →
      klatSttAttempt env msg (msg.raw_audio.getD "") db_lang
        ("sid-" ++ pyStr msg.sid ++ "-" ++ pyStr msg.socketIdEncrypted ++
          "-" ++ pyStr msg.user ++ "-" ++ pyStr msg.nano) =
        (pre, actx, txs) →
      listTruthy txs = false →
      handle_input_from_klat env bus db_lang db_profiles msg =
        ⟨pre, true, false⟩ ∧ ∀ m, KEmit.utter m ∉ pre) ∧
    (strTruthy msg.raw_audio = false → msg.need_transcription = false →
      msg.shout_text = none →
      ∃ m : UMsg,
        (handle_input_from_klat env bus db_lang db_profiles msg).emits =
          [KEmit.utter m] ∧ m.utterances = some [none]) := by
  constructor
  · intro pre actx txs h1 heq hfal
    constructor
    · unfold handle_input_from_klat
      simp [h1, heq, hfal]
    · intro m hm
      have hpre : pre = (klatSttAttempt env msg (msg.raw_audio.getD "")
          db_lang ("sid-" ++ pyStr msg.sid ++ "-" ++
            pyStr msg.socketIdEncrypted ++ "-" ++ pyStr msg.user ++ "-" ++
            pyStr msg.nano)).1 := by
        rw [heq]
      rw [hpre] at hm
      exact klatSttAttempt_no_utter env msg _ _ _ m hm
  · intro h1 h2 h3
    unfold handle_input_from_klat
    simp only [h1, h2, h3, Bool.false_eq_true, if_false]
    rw [emit_with_ident_eq bus
      (klatUtterMsg db_lang db_profiles msg none (some [none]))
      IdentV.clock rfl]
    exact ⟨klatUtterMsg db_lang db_profiles msg none (some [none]),
      by simp [listTruthy], rfl⟩

/-- A streaming engine whose `stream_stop` returns an empty transcript
list, over a filesystem where every path exists. -/
def env10 : SttEnv :=
  ⟨fun _ => true, fun _ => ⟨[], 8000, 2⟩, fun _ => [], fun _ => false,
    some [], some [], fun _ => .ok [], true⟩

/-- A klat message with audio but no transcription need. -/
def kmsgEmpty : KlatMsg :=
  ⟨some "k.wav", some "u", some "s", some "x", none, none, false, none,
    none, none⟩

/-- A klat message with neither audio nor `shout_text`. -/
def kmsgText : KlatMsg :=
  ⟨none, some "u", none, none, none, none, false, none, none, none⟩

/-- C10 witness: an empty engine transcript is guarded (warning, nothing
published), while the audio-less, text-less request publishes `[None]`. -/
theorem klat_null_transcription_guard_witness :
    (handle_input_from_klat env10 busNever "en" id kmsgEmpty =
      ⟨[], true, false⟩) ∧
    (∃ m : UMsg, (handle_input_from_klat env10 busNever "en" id
      kmsgText).emits = [KEmit.utter m] ∧ m.utterances = some [none]) :=
  ⟨((klat_null_transcription_guard env10 busNever "en" id kmsgEmpty).1
      [] (some []) (some []) rfl rfl rfl).1,
    (klat_null_transcription_guard env10 busNever "en" id kmsgText).2
      rfl rfl rfl⟩
